import Mathlib

/-!
Shallow embedding of the mongo-replica demonstration scripts found in
src/mongo-replica/scritps: the failover experiment (failover.py), the
write-concern benchmark (write_concern.py) and the consistency demo
(consistency.py).  Counters never overflow in these scripts, so they are
modelled as Nat; timestamps are modelled as abstract Nat instants (the
scripts store ISO strings produced by now_iso and compare the parsed
datetimes, which order exactly like the instants they denote).
-/

namespace MongoReplica

/-- Exceptions a pymongo insert can raise, as far as the except chain of
Writer.run (failover.py lines 86-100) distinguishes them.  The pymongo
class hierarchy: ServerSelectionTimeoutError and NotPrimaryError both
derive from AutoReconnect; WriteConcernError derives from
OperationFailure; every one of them derives from Exception. -/
inductive PyExc
  | serverSelectionTimeout
  | autoReconnect
  | notPrimary
  | writeConcernFailure
  | otherException
deriving DecidableEq

/-- isinstance(e, ServerSelectionTimeoutError). -/
def PyExc.isServerSelectionTimeout : PyExc → Bool
  | .serverSelectionTimeout => true
  | _ => false

/-- isinstance(e, AutoReconnect): ServerSelectionTimeoutError and
NotPrimaryError are subclasses of AutoReconnect in pymongo. -/
def PyExc.isAutoReconnect : PyExc → Bool
  | .serverSelectionTimeout => true
  | .autoReconnect => true
  | .notPrimary => true
  | _ => false

/-- isinstance(e, WriteConcernError). -/
def PyExc.isWriteConcernFailure : PyExc → Bool
  | .writeConcernFailure => true
  | _ => false

/-- isinstance(e, NotPrimaryError). -/
def PyExc.isNotPrimary : PyExc → Bool
  | .notPrimary => true
  | _ => false

/-- isinstance(e, Exception): every pymongo error derives from Exception. -/
def PyExc.isException : PyExc → Bool
  | _ => true

/-- Outcome recorded for one write attempt by Writer.run: the success
branch (line 84) or one of the five except branches (lines 86-100). -/
inductive WOutcome
  | success
  | timeout
  | disconnect
  | wcUnsatisfied
  | notLeader
  | otherFailure
deriving DecidableEq

/-- The except chain of Writer.run (failover.py lines 86-100), first
matching clause wins; `none` means no clause matched and the exception
would propagate out of the loop body.  Note the chain tests
AutoReconnect (line 89) before NotPrimaryError (line 95). -/
def handleExc (e : PyExc) : Option WOutcome :=
  if e.isServerSelectionTimeout then some WOutcome.timeout
  else if e.isAutoReconnect then some WOutcome.disconnect
  else if e.isWriteConcernFailure then some WOutcome.wcUnsatisfied
  else if e.isNotPrimary then some WOutcome.notLeader
  else if e.isException then some WOutcome.otherFailure
  else none

/-- One entry of Writer.records (failover.py line 71):
(seq, iso_ts, success_bool, err_msg_or_None), with the success flag and
error message fused into the outcome classification. -/
structure WriteRecord where
  seq : Nat
  ts : Nat
  outcome : WOutcome
deriving DecidableEq

/-- Program counter of the Writer.run loop (failover.py lines 74-104).
`head` is the outer while test (line 77), `attempt` the write plus
record append plus seq increment (lines 78-101), `sleepCheck` the inner
while test (line 103), `sleeping` one 0.1s slice (line 104), `done`
loop exit, `raised` an exception escaping the loop body. -/
inductive WPC
  | head
  | attempt
  | sleepCheck
  | sleeping
  | done
  | raised
deriving DecidableEq

/-- State of one Writer thread: seq counter, slices slept in the current
interval, the records list, the threading.Event stop flag, the program
counter, and a cumulative count of sleep slices ever taken. -/
structure WriterState where
  seq : Nat
  slept : Nat
  recs : List WriteRecord
  stopFlag : Bool
  pc : WPC
  slices : Nat
deriving DecidableEq

def writerInit : WriterState :=
  { seq := 0, slept := 0, recs := [], stopFlag := false, pc := WPC.head, slices := 0 }

/-- One small step of Writer.run (failover.py lines 74-104).  `total` is
self.total, `interval` is self.interval measured in 0.1s slices, and
`env seq` gives the timestamp taken at line 78 and the result of the
insert at lines 80-83 (`none` = acknowledged, `some e` = raised `e`).
The loop guards `seq < total and not stop` (line 77) and
`slept < interval and not stop` (line 103) are tested with the stop
flag first; the order of the two conjuncts does not change the guard. -/
def writerStep (total interval : Nat) (env : Nat → Nat × Option PyExc)
    (s : WriterState) : WriterState :=
  match s.pc with
  | WPC.head =>
      if s.stopFlag then { s with pc := WPC.done }
      else if s.seq < total then { s with pc := WPC.attempt }
      else { s with pc := WPC.done }
  | WPC.attempt =>
      match (env s.seq).2 with
      | none =>
          { s with recs := s.recs ++ [⟨s.seq, (env s.seq).1, WOutcome.success⟩],
                   seq := s.seq + 1, slept := 0, pc := WPC.sleepCheck }
      | some e =>
          match handleExc e with
          | some k =>
              { s with recs := s.recs ++ [⟨s.seq, (env s.seq).1, k⟩],
                       seq := s.seq + 1, slept := 0, pc := WPC.sleepCheck }
          | none => { s with pc := WPC.raised }
  | WPC.sleepCheck =>
      if s.stopFlag then { s with pc := WPC.head }
      else if s.slept < interval then { s with pc := WPC.sleeping }
      else { s with pc := WPC.head }
  | WPC.sleeping =>
      { s with slept := s.slept + 1, slices := s.slices + 1, pc := WPC.sleepCheck }
  | WPC.done => s
  | WPC.raised => s

/-- Writer.stop (failover.py lines 106-107): set the threading.Event. -/
def setStop (s : WriterState) : WriterState := { s with stopFlag := true }

/-- External interference before machine step `n`: the orchestrator may
call stop() at any point, modelled by the schedule `sched`. -/
def schedStep (sched : Nat → Bool) (n : Nat) (s : WriterState) : WriterState :=
  if sched n then setStop s else s

/-- `n` interleaved steps of one Writer thread under stop schedule
`sched` and attempt environment `env`. -/
def writerRun (total interval : Nat) (env : Nat → Nat × Option PyExc)
    (sched : Nat → Bool) : Nat → WriterState
  | 0 => writerInit
  | n + 1 =>
      writerStep total interval env
        (schedStep sched n (writerRun total interval env sched n))

/-- failover.py lines 109-115, choose_baseline ranking: a node's seq
list is ranked `-1 if not s else max(s)`; Python `not s` is true both
for None (read error) and for the empty list. -/
def rank : Option (List Nat) → Int
  | none => -1
  | some [] => -1
  | some (a :: l) => ((l.foldl max a : Nat) : Int)

/-- The loop body of choose_baseline (failover.py line 114): replace
(best, best_max) whenever a node's rank strictly exceeds best_max. -/
def cbStep (acc : Option String × Int) (p : String × Option (List Nat)) :
    Option String × Int :=
  if acc.2 < rank p.2 then (some p.1, rank p.2) else acc

/-- failover.py lines 109-115, choose_baseline: walk seqs_map in
insertion order starting from best=None, best_max=-1. -/
def choose_baseline (seqs_map : List (String × Option (List Nat))) : Option String :=
  (seqs_map.foldl cbStep ((none : Option String), (-1 : Int))).1

/-- failover.py lines 40-46, list_seqs: `fetched` is none when any part
of the connect/find raised (the except branch returns None), otherwise
the list of documents in seq order, each being its optional seq field;
the comprehension keeps the seq of every document that has one. -/
def list_seqs (fetched : Option (List (Option Nat))) : Option (List Nat) :=
  match fetched with
  | none => none
  | some docs => some (docs.filterMap id)

/-- consistency.py lines 23-32, show_docs: return set(ids) of the
documents read from one node; on any exception print the error and
return set(). -/
def show_docs (fetched : Option (List Nat)) : Finset Nat :=
  match fetched with
  | none => ∅
  | some ids => ids.toFinset

/-- failover.py lines 162-169: the timestamp of the first record in
list order whose success flag r[2] is false. -/
def firstFailure (recs : List WriteRecord) : Option Nat :=
  (recs.find? (fun r => !(r.outcome == WOutcome.success))).map WriteRecord.ts

/-- failover.py lines 188-198: the timestamp of the first successful
record in list order whose timestamp is strictly later than tf. -/
def firstSuccessAfter (recs : List WriteRecord) (tf : Nat) : Option Nat :=
  (recs.find? (fun r => (r.outcome == WOutcome.success) && decide (tf < r.ts))).map
    WriteRecord.ts

/-- failover.py lines 224-232: the downtime (t_succ - t_fail) is
computed only inside `if first_success_after:`, which is itself only
set when a first failure exists; otherwise nothing is reported. -/
def downtime (recs : List WriteRecord) : Option Int :=
  match firstFailure recs with
  | none => none
  | some tf =>
      match firstSuccessAfter recs tf with
      | none => none
      | some ts => some ((ts : Int) - (tf : Int))

/-- Python truthiness of the optional primary name np at line 180:
None and the empty string are falsy. -/
def truthy : Option String → Bool
  | none => false
  | some s => !(s == "")

/-- Whether one poll of the election loop (failover.py lines 176-184)
fires: res is none when connect raised (except: pass, line 182-183),
some np when get_primary_name returned np. -/
def goodPoll (prev : Option String) (res : Option (Option String)) : Bool :=
  match res with
  | none => false
  | some np => truthy np && !(np == prev)

/-- failover.py lines 173-185: poll for a primary different from prev.
One recursion step is one loop iteration ending in the fixed 0.5s sleep
of line 184, so `fuel` is the 60s deadline divided by the 0.5s poll
interval; `i` indexes the next poll. -/
def watchAux (prev : Option String) (poll : Nat → Option (Option String)) :
    Nat → Nat → Option String
  | _, 0 => none
  | i, fuel + 1 =>
      match poll i with
      | none => watchAux prev poll (i + 1) fuel
      | some np =>
          if truthy np && !(np == prev) then np
          else watchAux prev poll (i + 1) fuel

/-- failover.py lines 173-185, starting from the first poll. -/
def watchForPrimaryChange (prev : Option String)
    (poll : Nat → Option (Option String)) (fuel : Nat) : Option String :=
  watchAux prev poll 0 fuel

/-- The phases of main after the writer has started
(failover.py lines 154-285). -/
inductive Phase
  | pausePrimary        -- stop_container(PRIMARY_CONTAINER), line 156
  | detectFirstFailure  -- lines 162-170
  | awaitNewPrimary     -- lines 172-185
  | detectRecovery      -- lines 187-199
  | resumePrimary       -- start_container(PRIMARY_CONTAINER), line 206
  | stabilize           -- line 209
  | drainWriter         -- lines 211-219
  | summary             -- lines 221-232
  | collectSeqs         -- lines 234-252
  | majorityInserts     -- lines 254-264
  | majorityPause       -- stop_container, line 269
  | majorityResume      -- start_container, line 274
  | finalCounts         -- lines 279-285
deriving DecidableEq

/-- What one run of main's scenario did: the phases it executed in
order, the fault-injector failures it merely printed, and the exit
code if it called sys.exit. -/
structure ScenarioRun where
  executed : List Phase
  logged : List Phase
  exitCode : Option Nat
deriving DecidableEq

/-- Control flow of main (failover.py lines 154-285) as a function of
which fault-injector (docker stop/start) calls succeed.  Lines 155-160:
a failed initial stop_container prints the error, stops the writer and
calls sys.exit(1).  Lines 205-208: a failed start_container prints
"docker start failed" and falls through to the next statement.  Lines
268-271 and 273-276: the majority-test stop/start failures likewise
print and fall through. -/
def runScenario (pauseOk resumeOk majPauseOk majResumeOk : Bool) : ScenarioRun :=
  if pauseOk = false then
    { executed := [Phase.pausePrimary],
      logged := [Phase.pausePrimary],
      exitCode := some 1 }
  else
    { executed := [Phase.pausePrimary, Phase.detectFirstFailure, Phase.awaitNewPrimary,
        Phase.detectRecovery, Phase.resumePrimary, Phase.stabilize, Phase.drainWriter,
        Phase.summary, Phase.collectSeqs, Phase.majorityInserts, Phase.majorityPause,
        Phase.majorityResume, Phase.finalCounts],
      logged := (if resumeOk then [] else [Phase.resumePrimary])
        ++ (if majPauseOk then [] else [Phase.majorityPause])
        ++ (if majResumeOk then [] else [Phase.majorityResume]),
      exitCode := none }

/-- write_concern.py lines 33-43: the per-level benchmark loop.
`attempt i` is none when insert_one raised on run i (the error is
printed and the loop continues with the next run) and some d when the
write took d milliseconds.  Returns the latency samples in order and
the indices whose failure was logged. -/
def benchLoop (runs : Nat) (attempt : Nat → Option ℚ) : List ℚ × List Nat :=
  (List.range runs).foldl
    (fun acc i =>
      match attempt i with
      | none => (acc.1, acc.2 ++ [i])
      | some d => (acc.1 ++ [d], acc.2))
    ([], [])

/-- write_concern.py lines 45-48: the per-level report. -/
inductive BenchReport
  | stats (avg mn mx : ℚ)
  | noSuccessfulWrites
deriving DecidableEq

/-- write_concern.py lines 45-48: mean/min/max are evaluated only under
`if latencies:`; the empty sample prints "No successful writes". -/
def benchReport (latencies : List ℚ) : BenchReport :=
  match latencies with
  | [] => BenchReport.noSuccessfulWrites
  | d :: ds =>
      BenchReport.stats ((d :: ds).sum / (((d :: ds).length : ℚ)))
        (ds.foldl min d) (ds.foldl max d)

/-- One ack level of the benchmark: run the loop, report its samples. -/
def benchLevel (runs : Nat) (attempt : Nat → Option ℚ) : BenchReport :=
  benchReport (benchLoop runs attempt).1

/-- A write environment where every attempt succeeds at instant 0. -/
def envAllOk : Nat → Nat × Option PyExc := fun _ => (0, none)

/-- A write environment where attempt 0 raises ServerSelectionTimeout
at instant 10 and every later attempt succeeds at instant 15. -/
def envFailFirst : Nat → Nat × Option PyExc :=
  fun n => if n = 0 then (10, some PyExc.serverSelectionTimeout) else (15, none)

/-- A stop schedule that requests stop before every step. -/
def schedAlways : Nat → Bool := fun _ => true

/-- A stop schedule that never requests stop. -/
def schedNever : Nat → Bool := fun _ => false

/-- A stop schedule that requests stop just before machine step 1,
while the first write attempt is about to run. -/
def schedOne : Nat → Bool := fun m => m == 1

/-- A concrete record list: one failed write at instant 10, then one
successful write at instant 15. -/
def recsW : List WriteRecord :=
  [⟨0, 10, WOutcome.timeout⟩, ⟨1, 15, WOutcome.success⟩]

/-- A benchmark level on which every insert raises. -/
def attemptAllFail : Nat → Option ℚ := fun _ => none

/-- A poll sequence that always observes mongo2 as primary. -/
def pollW : Nat → Option (Option String) := fun _ => some (some "mongo2")

/-- A concrete per-node seqs map: mongo1 holds [0,1,2], mongo2 was
unreadable, mongo3 holds [0,1]. -/
def mW : List (String × Option (List Nat)) :=
  [("mongo1", some [0, 1, 2]), ("mongo2", none), ("mongo3", some [0, 1])]

/-! Theorems. -/

theorem handleExc_isSome (e : PyExc) : (handleExc e).isSome = true := by
  cases e <;> rfl

theorem schedStep_recs (sched : Nat → Bool) (n : Nat) (s : WriterState) :
    (schedStep sched n s).recs = s.recs := by
  unfold schedStep
  split <;> rfl

theorem schedStep_seq (sched : Nat → Bool) (n : Nat) (s : WriterState) :
    (schedStep sched n s).seq = s.seq := by
  unfold schedStep
  split <;> rfl

theorem schedStep_pc (sched : Nat → Bool) (n : Nat) (s : WriterState) :
    (schedStep sched n s).pc = s.pc := by
  unfold schedStep
  split <;> rfl

theorem setStop_of_stopped (s : WriterState) (h : s.stopFlag = true) :
    setStop s = s := by
  obtain ⟨sq, sl, rc, st, pc, sc⟩ := s
  cases st
  · exact Bool.noConfusion h
  · rfl

theorem schedStep_of_stopped (sched : Nat → Bool) (n : Nat) (s : WriterState)
    (h : s.stopFlag = true) : schedStep sched n s = s := by
  unfold schedStep
  split
  · exact setStop_of_stopped s h
  · rfl

theorem writerStep_stopFlag (total interval : Nat) (env : Nat → Nat × Option PyExc)
    (s : WriterState) : (writerStep total interval env s).stopFlag = s.stopFlag := by
  obtain ⟨sq, sl, rc, st, pc, sc⟩ := s
  cases pc
  case head =>
    simp only [writerStep]
    split
    · rfl
    · split <;> rfl
  case attempt =>
    simp only [writerStep]
    rcases he : (env sq).2 with _ | e
    · rfl
    · rcases hk : handleExc e with _ | k <;> simp [hk]
  case sleepCheck =>
    simp only [writerStep]
    split
    · rfl
    · split <;> rfl
  case sleeping => rfl
  case done => rfl
  case raised => rfl

theorem writerStep_pc_ne_raised (total interval : Nat) (env : Nat → Nat × Option PyExc)
    (s : WriterState) (h : s.pc ≠ WPC.raised) :
    (writerStep total interval env s).pc ≠ WPC.raised := by
  obtain ⟨sq, sl, rc, st, pc, sc⟩ := s
  cases pc
  case head =>
    simp only [writerStep]
    split
    · exact fun hx => WPC.noConfusion hx
    · split <;> exact fun hx => WPC.noConfusion hx
  case attempt =>
    simp only [writerStep]
    rcases he : (env sq).2 with _ | e
    · exact fun hx => WPC.noConfusion hx
    · rcases hk : handleExc e with _ | k
      · exact absurd (handleExc_isSome e) (by rw [hk]; decide)
      · simp only [hk]
        exact fun hx => WPC.noConfusion hx
  case sleepCheck =>
    simp only [writerStep]
    split
    · exact fun hx => WPC.noConfusion hx
    · split <;> exact fun hx => WPC.noConfusion hx
  case sleeping => exact fun hx => WPC.noConfusion hx
  case done => exact fun hx => WPC.noConfusion hx
  case raised => exact absurd rfl h

theorem writerRun_pc_ne_raised (total interval : Nat) (env : Nat → Nat × Option PyExc)
    (sched : Nat → Bool) (n : Nat) :
    (writerRun total interval env sched n).pc ≠ WPC.raised := by
  induction n with
  | zero => exact fun hx => WPC.noConfusion hx
  | succ n ih =>
      refine writerStep_pc_ne_raised total interval env _ ?_
      rw [schedStep_pc]
      exact ih

theorem writerStep_map_seq (total interval : Nat) (env : Nat → Nat × Option PyExc)
    (s : WriterState) (h : s.recs.map WriteRecord.seq = List.range s.seq) :
    ((writerStep total interval env s).recs.map WriteRecord.seq)
      = List.range (writerStep total interval env s).seq := by
  obtain ⟨sq, sl, rc, st, pc, sc⟩ := s
  have h9 : rc.map WriteRecord.seq = List.range sq := h
  have h10 : (rc ++ [(⟨sq, (env sq).1, WOutcome.success⟩ : WriteRecord)]).map WriteRecord.seq
      = List.range (sq + 1) := by
    simp [List.range_succ, h9]
  cases pc
  case head =>
    simp only [writerStep]
    split
    · exact h9
    · split <;> exact h9
  case attempt =>
    simp only [writerStep]
    rcases he : (env sq).2 with _ | e
    · exact h10
    · rcases hk : handleExc e with _ | k
      · simp only [hk]
        exact h9
      · simp only [hk]
        simp [List.range_succ, h9]
  case sleepCheck =>
    simp only [writerStep]
    split
    · exact h9
    · split <;> exact h9
  case sleeping => exact h9
  case done => exact h9
  case raised => exact h9

theorem writerRun_map_seq (total interval : Nat) (env : Nat → Nat × Option PyExc)
    (sched : Nat → Bool) (n : Nat) :
    ((writerRun total interval env sched n).recs.map WriteRecord.seq)
      = List.range (writerRun total interval env sched n).seq := by
  induction n with
  | zero => rfl
  | succ n ih =>
      refine writerStep_map_seq total interval env _ ?_
      rw [schedStep_recs, schedStep_seq]
      exact ih

/-- C1: for every run of one Writer instance, under any stop schedule
and any per-attempt outcomes, the sequence numbers in the records list
are exactly the contiguous range [0, attempted) in increasing order
(attempted = the number of records), with no duplicates and no gaps. -/
theorem writer_seq_numbers_contiguous (total interval : Nat)
    (env : Nat → Nat × Option PyExc) (sched : Nat → Bool) (n : Nat) :
    ((writerRun total interval env sched n).recs.map WriteRecord.seq)
      = List.range (writerRun total interval env sched n).recs.length := by
  have h := writerRun_map_seq total interval env sched n
  have hlen : (writerRun total interval env sched n).recs.length
      = (writerRun total interval env sched n).seq := by
    have h2 := congrArg List.length h
    simpa using h2
  rw [hlen]
  exact h

theorem writerStep_attempt_append (total interval : Nat)
    (env : Nat → Nat × Option PyExc) (s : WriterState) (h : s.pc = WPC.attempt) :
    ∃ r : WriteRecord, (writerStep total interval env s).recs = s.recs ++ [r] := by
  obtain ⟨sq, sl, rc, st, pc, sc⟩ := s
  cases pc
  case attempt =>
    simp only [writerStep]
    rcases he : (env sq).2 with _ | e
    · exact ⟨⟨sq, (env sq).1, WOutcome.success⟩, rfl⟩
    · rcases hk : handleExc e with _ | k
      · exact absurd (handleExc_isSome e) (by rw [hk]; decide)
      · refine ⟨⟨sq, (env sq).1, k⟩, ?_⟩
        simp [hk]
  all_goals exact absurd h (fun hx => WPC.noConfusion hx)

/-- C2: every write attempt of the Writer loop appends exactly one
WriteRecord, every exception a write can raise is classified by the
except chain into one of the six outcome kinds (handleExc is total),
and the loop body never reaches the raised state under any schedule
and any sequence of attempt outcomes. -/
theorem writer_attempt_always_recorded (total interval : Nat)
    (env : Nat → Nat × Option PyExc) (sched : Nat → Bool) (n : Nat) :
    (∀ e : PyExc, (handleExc e).isSome = true) ∧
    (writerRun total interval env sched n).pc ≠ WPC.raised ∧
    ((writerRun total interval env sched n).pc = WPC.attempt →
      ∃ r : WriteRecord,
        (writerRun total interval env sched (n + 1)).recs
          = (writerRun total interval env sched n).recs ++ [r]) := by
  refine ⟨handleExc_isSome, writerRun_pc_ne_raised total interval env sched n, ?_⟩
  intro hpc
  have hpc2 : (schedStep sched n (writerRun total interval env sched n)).pc
      = WPC.attempt := by
    rw [schedStep_pc]
    exact hpc
  obtain ⟨r, hr⟩ := writerStep_attempt_append total interval env
    (schedStep sched n (writerRun total interval env sched n)) hpc2
  refine ⟨r, ?_⟩
  show (writerStep total interval env
    (schedStep sched n (writerRun total interval env sched n))).recs = _
  rw [hr, schedStep_recs]

/-- Witness for C2 at a run whose step 1 is a write attempt. -/
theorem writer_attempt_always_recorded_witness :
    ∃ r : WriteRecord,
      (writerRun 1 1 envAllOk schedNever 2).recs
        = (writerRun 1 1 envAllOk schedNever 1).recs ++ [r] :=
  (writer_attempt_always_recorded 1 1 envAllOk schedNever 1).2.2 (by decide)

theorem writerStep_done_eq (total interval : Nat) (env : Nat → Nat × Option PyExc)
    (s : WriterState) (h : s.pc = WPC.done) : writerStep total interval env s = s := by
  obtain ⟨sq, sl, rc, st, pc, sc⟩ := s
  cases pc
  case done => rfl
  all_goals exact absurd h (fun hx => WPC.noConfusion hx)

theorem writerRun_stopFlag_mono (total interval : Nat) (env : Nat → Nat × Option PyExc)
    (sched : Nat → Bool) (n k : Nat)
    (h : (writerRun total interval env sched n).stopFlag = true) :
    (writerRun total interval env sched (n + k)).stopFlag = true := by
  induction k with
  | zero => exact h
  | succ k ih =>
      show (writerStep total interval env
        (schedStep sched (n + k) (writerRun total interval env sched (n + k)))).stopFlag
          = true
      rw [writerStep_stopFlag, schedStep_of_stopped _ _ _ ih]
      exact ih

theorem writerRun_stable (total interval : Nat) (env : Nat → Nat × Option PyExc)
    (sched : Nat → Bool) (m : Nat)
    (hst : (writerRun total interval env sched m).stopFlag = true)
    (hpc : (writerRun total interval env sched m).pc = WPC.done) :
    ∀ k, writerRun total interval env sched (m + k)
      = writerRun total interval env sched m := by
  intro k
  induction k with
  | zero => rfl
  | succ k ih =>
      show writerStep total interval env
        (schedStep sched (m + k) (writerRun total interval env sched (m + k))) = _
      rw [ih, schedStep_of_stopped _ _ _ hst, writerStep_done_eq _ _ _ _ hpc]

theorem writerStep3_stopped (total interval : Nat) (env : Nat → Nat × Option PyExc)
    (s : WriterState) (hstop : s.stopFlag = true) (hr : s.pc ≠ WPC.raised) :
    (writerStep total interval env (writerStep total interval env
      (writerStep total interval env s))).pc = WPC.done ∧
    (writerStep total interval env (writerStep total interval env
      (writerStep total interval env s))).recs.length ≤ s.recs.length + 1 ∧
    (writerStep total interval env (writerStep total interval env
      (writerStep total interval env s))).slices ≤ s.slices + 1 := by
  obtain ⟨sq, sl, rc, st, pc, sc⟩ := s
  have hst : st = true := hstop
  subst hst
  cases pc
  case head => exact ⟨rfl, Nat.le_succ _, Nat.le_succ _⟩
  case attempt =>
    rcases he : (env sq).2 with _ | e
    · have h1 : writerStep total interval env
          ⟨sq, sl, rc, true, WPC.attempt, sc⟩
          = ⟨sq + 1, 0, rc ++ [⟨sq, (env sq).1, WOutcome.success⟩], true,
              WPC.sleepCheck, sc⟩ := by
        simp only [writerStep, he]
      rw [h1]
      refine ⟨rfl, ?_, Nat.le_succ _⟩
      simp [writerStep]
    · rcases hk : handleExc e with _ | k
      · exact absurd (handleExc_isSome e) (by rw [hk]; decide)
      · have h1 : writerStep total interval env
            ⟨sq, sl, rc, true, WPC.attempt, sc⟩
            = ⟨sq + 1, 0, rc ++ [⟨sq, (env sq).1, k⟩], true, WPC.sleepCheck, sc⟩ := by
          simp only [writerStep, he, hk]
        rw [h1]
        refine ⟨rfl, ?_, Nat.le_succ _⟩
        simp [writerStep]
  case sleepCheck => exact ⟨rfl, Nat.le_succ _, Nat.le_succ _⟩
  case sleeping => exact ⟨rfl, Nat.le_succ _, Nat.le_refl _⟩
  case done => exact ⟨rfl, Nat.le_succ _, Nat.le_succ _⟩
  case raised => exact absurd rfl hr

/-- C6: once the stop flag is set, the Writer loop reaches its exit in
at most three machine steps - finishing at most the one in-flight
attempt (at most one more record) and taking at most one more 0.1s
sleep slice - and after that exit the records list never changes
again (nothing is appended after a completed join). -/
theorem writer_stop_join_bounded (total interval : Nat)
    (env : Nat → Nat × Option PyExc) (sched : Nat → Bool) (n : Nat)
    (h : (writerRun total interval env sched n).stopFlag = true) :
    (writerRun total interval env sched (n + 3)).pc = WPC.done ∧
    (writerRun total interval env sched (n + 3)).recs.length
      ≤ (writerRun total interval env sched n).recs.length + 1 ∧
    (writerRun total interval env sched (n + 3)).slices
      ≤ (writerRun total interval env sched n).slices + 1 ∧
    ∀ k, (writerRun total interval env sched (n + 3 + k)).recs
      = (writerRun total interval env sched (n + 3)).recs := by
  have hst1 : (writerRun total interval env sched (n + 1)).stopFlag = true :=
    writerRun_stopFlag_mono total interval env sched n 1 h
  have hst2 : (writerRun total interval env sched (n + 2)).stopFlag = true :=
    writerRun_stopFlag_mono total interval env sched n 2 h
  have h1 : writerRun total interval env sched (n + 1)
      = writerStep total interval env (writerRun total interval env sched n) := by
    show writerStep total interval env
      (schedStep sched n (writerRun total interval env sched n)) = _
    rw [schedStep_of_stopped _ _ _ h]
  have h2 : writerRun total interval env sched (n + 2)
      = writerStep total interval env (writerRun total interval env sched (n + 1)) := by
    show writerStep total interval env
      (schedStep sched (n + 1) (writerRun total interval env sched (n + 1))) = _
    rw [schedStep_of_stopped _ _ _ hst1]
  have h3 : writerRun total interval env sched (n + 3)
      = writerStep total interval env (writerRun total interval env sched (n + 2)) := by
    show writerStep total interval env
      (schedStep sched (n + 2) (writerRun total interval env sched (n + 2))) = _
    rw [schedStep_of_stopped _ _ _ hst2]
  have hchain : writerRun total interval env sched (n + 3)
      = writerStep total interval env (writerStep total interval env
          (writerStep total interval env (writerRun total interval env sched n))) := by
    rw [h3, h2, h1]
  obtain ⟨hA, hB, hC⟩ := writerStep3_stopped total interval env
    (writerRun total interval env sched n) h
    (writerRun_pc_ne_raised total interval env sched n)
  have hpc3 : (writerRun total interval env sched (n + 3)).pc = WPC.done := by
    rw [hchain]; exact hA
  have hst3 : (writerRun total interval env sched (n + 3)).stopFlag = true :=
    writerRun_stopFlag_mono total interval env sched n 3 h
  refine ⟨hpc3, ?_, ?_, ?_⟩
  · rw [hchain]; exact hB
  · rw [hchain]; exact hC
  · intro k
    rw [writerRun_stable total interval env sched (n + 3) hst3 hpc3 k]

/-- Witness for C6: stop is requested while attempt 0 is in flight
(schedule schedOne); the state at step 2 is stopped, at step 5 the
loop has exited. -/
theorem writer_stop_join_bounded_witness :
    (writerRun 2 3 envAllOk schedOne 2).stopFlag = true ∧
    (writerRun 2 3 envAllOk schedOne (2 + 3)).pc = WPC.done :=
  ⟨by decide, (writer_stop_join_bounded 2 3 envAllOk schedOne 2 (by decide)).1⟩

theorem downtime_eq (recs : List WriteRecord) (tf ts : Nat)
    (hf : firstFailure recs = some tf) (hs : firstSuccessAfter recs tf = some ts) :
    downtime recs = some ((ts : Int) - (tf : Int)) := by
  simp only [downtime, hf, hs]

theorem downtime_none_left (recs : List WriteRecord)
    (hf : firstFailure recs = none) : downtime recs = none := by
  simp only [downtime, hf]

theorem downtime_none_right (recs : List WriteRecord) (tf : Nat)
    (hf : firstFailure recs = some tf) (hs : firstSuccessAfter recs tf = none) :
    downtime recs = none := by
  simp only [downtime, hf, hs]

theorem firstSuccessAfter_lt (recs : List WriteRecord) (tf ts : Nat)
    (hs : firstSuccessAfter recs tf = some ts) : tf < ts := by
  unfold firstSuccessAfter at hs
  rcases Option.map_eq_some'.mp hs with ⟨r, hr, hts⟩
  have hp := List.find?_some hr
  rw [Bool.and_eq_true] at hp
  have hlt := of_decide_eq_true hp.2
  omega

/-- C5: the downtime metric equals the timestamp of the first success
strictly after the first failure minus the first-failure timestamp; it
is present exactly when both exist (absent, not zero, otherwise), and
whenever present it is nonnegative. -/
theorem downtime_defined_and_nonnegative (recs : List WriteRecord) :
    (∀ d : Int, downtime recs = some d → 0 ≤ d) ∧
    ((downtime recs).isSome = true ↔
      ∃ tf : Nat, firstFailure recs = some tf
        ∧ (firstSuccessAfter recs tf).isSome = true) ∧
    (∀ tf ts : Nat, firstFailure recs = some tf →
      firstSuccessAfter recs tf = some ts →
      downtime recs = some ((ts : Int) - (tf : Int))) := by
  refine ⟨?_, ⟨?_, ?_⟩, fun tf ts hf hs => downtime_eq recs tf ts hf hs⟩
  · intro d hd
    rcases hf : firstFailure recs with _ | tf
    · rw [downtime_none_left recs hf] at hd
      exact Option.noConfusion hd
    · rcases hs : firstSuccessAfter recs tf with _ | ts
      · rw [downtime_none_right recs tf hf hs] at hd
        exact Option.noConfusion hd
      · rw [downtime_eq recs tf ts hf hs] at hd
        have hlt := firstSuccessAfter_lt recs tf ts hs
        have hdv : (ts : Int) - (tf : Int) = d := Option.some.inj hd
        omega
  · intro hd
    rcases hf : firstFailure recs with _ | tf
    · rw [downtime_none_left recs hf] at hd
      exact Bool.noConfusion hd
    · rcases hs : firstSuccessAfter recs tf with _ | ts
      · rw [downtime_none_right recs tf hf hs] at hd
        exact Bool.noConfusion hd
      · exact ⟨tf, rfl, by rw [hs]; rfl⟩
  · rintro ⟨tf, hf, hs⟩
    rcases Option.isSome_iff_exists.mp hs with ⟨ts, hts⟩
    rw [downtime_eq recs tf ts hf hts]
    rfl

/-- Witness for C5 on recsW: failure at 10, success at 15, downtime 5. -/
theorem downtime_defined_and_nonnegative_witness :
    downtime recsW = some 5 ∧ (0 : Int) ≤ 5 :=
  ⟨by decide, (downtime_defined_and_nonnegative recsW).1 5 (by decide)⟩

/-- C3 counterexample: consistency.py's show_docs represents a node it
could not ask (the except branch, fetched = none) by the very same
value as a node holding zero rows (set() = the empty id set), so on
the prober code of consistency.py the claim is false. -/
theorem show_docs_conflates_unreadable_and_empty :
    show_docs none = show_docs (some []) := by decide

/-- C3 amended: failover.py's list_seqs does mark an unreachable node
with the explicit marker None, which differs from every successful
read result, including the zero-row read some []; consistency.py's
show_docs, however, returns the empty set both for a read error and
for zero rows. -/
theorem list_seqs_unreadable_marker_distinct (docs : List (Option Nat)) :
    list_seqs none = none ∧
    (list_seqs (some docs)).isSome = true ∧
    show_docs none = show_docs (some []) :=
  ⟨rfl, rfl, by decide⟩

/-- C4 counterexample: when the pause succeeds but the later resume of
the primary fails (start_container raises, failover.py lines 205-208),
main does not abort: it prints the error and executes every remaining
scenario phase, contradicting the claim that every injection failure
aborts the scenario. -/
theorem resume_failure_continues_scenario :
    (runScenario true false true true).exitCode = none ∧
    Phase.drainWriter ∈ (runScenario true false true true).executed ∧
    Phase.finalCounts ∈ (runScenario true false true true).executed := by
  decide

/-- C4 amended: only a failure of the initial pause of the primary
(stop_container, failover.py lines 155-160) aborts the scenario, with
exit code 1 and no further phase executed; a failure of the later
resume (lines 205-208) is logged and execution continues through the
remaining phases (as do the majority-test pause/resume failures). -/
theorem injection_failure_abort_policy (r mp mr : Bool) :
    (runScenario false r mp mr).exitCode = some 1 ∧
    (runScenario false r mp mr).executed = [Phase.pausePrimary] ∧
    (runScenario true false mp mr).exitCode = none ∧
    Phase.resumePrimary ∈ (runScenario true false mp mr).logged ∧
    Phase.finalCounts ∈ (runScenario true false mp mr).executed := by
  cases r <;> cases mp <;> cases mr <;> decide

theorem benchLoop_succ (n : Nat) (attempt : Nat → Option ℚ) :
    benchLoop (n + 1) attempt
      = (match attempt n with
         | none => ((benchLoop n attempt).1, (benchLoop n attempt).2 ++ [n])
         | some d => ((benchLoop n attempt).1 ++ [d], (benchLoop n attempt).2)) := by
  unfold benchLoop
  rw [List.range_succ, List.foldl_append]
  rfl

theorem benchLoop_fst (runs : Nat) (attempt : Nat → Option ℚ) :
    (benchLoop runs attempt).1 = (List.range runs).filterMap attempt := by
  induction runs with
  | zero => rfl
  | succ n ih =>
      rw [benchLoop_succ, List.range_succ, List.filterMap_append]
      rcases ha : attempt n with _ | d
      · simp [ha, ih]
      · simp [ha, ih]

theorem benchLoop_snd (runs : Nat) (attempt : Nat → Option ℚ) :
    (benchLoop runs attempt).2
      = (List.range runs).filter (fun i => (attempt i).isNone) := by
  induction runs with
  | zero => rfl
  | succ n ih =>
      rw [benchLoop_succ, List.range_succ, List.filter_append]
      rcases ha : attempt n with _ | d
      · simp [ha, ih]
      · simp [ha, ih]

theorem benchLoop_length (runs : Nat) (attempt : Nat → Option ℚ) :
    (benchLoop runs attempt).1.length + (benchLoop runs attempt).2.length = runs := by
  induction runs with
  | zero => rfl
  | succ n ih =>
      rw [benchLoop_succ]
      rcases ha : attempt n with _ | d
      · simp only [List.length_append, List.length_singleton]
        omega
      · simp only [List.length_append, List.length_singleton]
        omega

/-- C8: in the benchmark loop every failed write contributes no latency
sample (the sample list is exactly the durations of the successful
attempts, in order), every failed write is logged, and the loop always
processes all `runs` attempts - a single failure never terminates the
level (samples plus logged failures account for every run). -/
theorem bench_failed_write_excluded_and_logged (runs : Nat)
    (attempt : Nat → Option ℚ) :
    (benchLoop runs attempt).1 = (List.range runs).filterMap attempt ∧
    (benchLoop runs attempt).2
      = (List.range runs).filter (fun i => (attempt i).isNone) ∧
    (benchLoop runs attempt).1.length + (benchLoop runs attempt).2.length = runs :=
  ⟨benchLoop_fst runs attempt, benchLoop_snd runs attempt, benchLoop_length runs attempt⟩

theorem benchReport_none_iff (l : List ℚ) :
    benchReport l = BenchReport.noSuccessfulWrites ↔ l = [] := by
  cases l with
  | nil => simp [benchReport]
  | cons d ds => simp [benchReport]

/-- C9: the benchmark never computes statistics over an empty sample:
the per-level report is the "No successful writes" line exactly when
every attempt at that level failed, mean/min/max are produced exactly
on a non-empty sample, and the empty sample maps to the
"No successful writes" report. -/
theorem bench_no_stats_on_empty_sample (runs : Nat) (attempt : Nat → Option ℚ) :
    (benchLevel runs attempt = BenchReport.noSuccessfulWrites
      ↔ ∀ i, i < runs → attempt i = none) ∧
    benchReport [] = BenchReport.noSuccessfulWrites ∧
    (∀ (d : ℚ) (ds : List ℚ), ∃ avg mn mx : ℚ,
      benchReport (d :: ds) = BenchReport.stats avg mn mx) := by
  refine ⟨?_, rfl, fun d ds => ⟨_, _, _, rfl⟩⟩
  unfold benchLevel
  rw [benchLoop_fst, benchReport_none_iff, List.filterMap_eq_nil_iff]
  constructor
  · intro h i hi
    exact h i (List.mem_range.mpr hi)
  · intro h a ha
    exact h a (List.mem_range.mp ha)

/-- Witness for C9: three attempts, all raising, report the
"No successful writes" line. -/
theorem bench_no_stats_on_empty_sample_witness :
    benchLevel 3 attemptAllFail = BenchReport.noSuccessfulWrites :=
  (bench_no_stats_on_empty_sample 3 attemptAllFail).1.mpr (fun _ _ => rfl)

theorem rank_ge_neg_one (s : Option (List Nat)) : -1 ≤ rank s := by
  rcases s with _ | l
  · exact le_refl _
  · rcases l with _ | ⟨a, l⟩
    · exact le_refl _
    · simp only [rank]
      omega

theorem cb_fold_snd_ge (l : List (String × Option (List Nat))) :
    ∀ acc : Option String × Int,
      acc.2 ≤ (l.foldl cbStep acc).2 ∧
      ∀ p ∈ l, rank p.2 ≤ (l.foldl cbStep acc).2 := by
  induction l with
  | nil =>
      intro acc
      exact ⟨le_refl _, by simp⟩
  | cons p l ih =>
      intro acc
      have hstep : acc.2 ≤ (cbStep acc p).2 ∧ rank p.2 ≤ (cbStep acc p).2 := by
        unfold cbStep
        by_cases hc : acc.2 < rank p.2
        · rw [if_pos hc]
          exact ⟨le_of_lt hc, le_refl _⟩
        · rw [if_neg hc]
          exact ⟨le_refl _, le_of_not_lt hc⟩
      obtain ⟨h1, h2⟩ := ih (cbStep acc p)
      refine ⟨le_trans hstep.1 h1, ?_⟩
      intro q hq
      rcases List.mem_cons.mp hq with hq | hq
      · subst hq
        exact le_trans hstep.2 h1
      · exact h2 q hq

theorem cb_fold_none (l : List (String × Option (List Nat))) :
    ∀ acc : Option String × Int, (l.foldl cbStep acc).1 = none →
      acc.1 = none ∧ ∀ p ∈ l, rank p.2 ≤ acc.2 := by
  induction l with
  | nil =>
      intro acc h
      exact ⟨h, by simp⟩
  | cons p l ih =>
      intro acc h
      rw [List.foldl_cons] at h
      obtain ⟨h1, h2⟩ := ih (cbStep acc p) h
      by_cases hc : acc.2 < rank p.2
      · exfalso
        unfold cbStep at h1
        rw [if_pos hc] at h1
        exact Option.noConfusion h1
      · have hstep : cbStep acc p = acc := by
          unfold cbStep
          rw [if_neg hc]
        rw [hstep] at h1 h2
        refine ⟨h1, ?_⟩
        intro q hq
        rcases List.mem_cons.mp hq with hq | hq
        · subst hq
          exact le_of_not_lt hc
        · exact h2 q hq

theorem cb_fold_stay (l : List (String × Option (List Nat))) :
    ∀ acc : Option String × Int, (∀ p ∈ l, rank p.2 ≤ acc.2) →
      l.foldl cbStep acc = acc := by
  induction l with
  | nil =>
      intro acc _
      rfl
  | cons p l ih =>
      intro acc h
      have hc : ¬ acc.2 < rank p.2 := not_lt.mpr (h p (List.mem_cons_self p l))
      have hstep : cbStep acc p = acc := by
        unfold cbStep
        rw [if_neg hc]
      rw [List.foldl_cons, hstep]
      exact ih acc (fun q hq => h q (List.mem_cons_of_mem p hq))

theorem cb_fold_some (l : List (String × Option (List Nat))) :
    ∀ (acc : Option String × Int) (nm : String),
      (l.foldl cbStep acc).1 = some nm →
      (acc.1 = some nm ∧ (l.foldl cbStep acc).2 = acc.2) ∨
      (∃ s, (nm, s) ∈ l ∧ rank s = (l.foldl cbStep acc).2) := by
  induction l with
  | nil =>
      intro acc nm h
      exact Or.inl ⟨h, rfl⟩
  | cons p l ih =>
      intro acc nm h
      rw [List.foldl_cons] at h ⊢
      rcases ih (cbStep acc p) nm h with ⟨h1, h2⟩ | ⟨s, hs, hr⟩
      · by_cases hc : acc.2 < rank p.2
        · have hstep : cbStep acc p = (some p.1, rank p.2) := by
            unfold cbStep
            rw [if_pos hc]
          rw [hstep] at h1 h2 ⊢
          have hpnm : p.1 = nm := Option.some.inj h1
          refine Or.inr ⟨p.2, ?_, ?_⟩
          · rw [← hpnm]
            exact List.mem_cons_self p l
          · rw [h2]
        · have hstep : cbStep acc p = acc := by
            unfold cbStep
            rw [if_neg hc]
          rw [hstep] at h1 h2 ⊢
          exact Or.inl ⟨h1, h2⟩
      · exact Or.inr ⟨s, List.mem_cons_of_mem p hs, hr⟩

theorem cb_fold_pos (l : List (String × Option (List Nat))) :
    ∀ (acc : Option String × Int) (nm : String), acc.1 = none →
      (l.foldl cbStep acc).1 = some nm → acc.2 < (l.foldl cbStep acc).2 := by
  induction l with
  | nil =>
      intro acc nm h0 h
      rw [List.foldl_nil, h0] at h
      exact Option.noConfusion h
  | cons p l ih =>
      intro acc nm h0 h
      rw [List.foldl_cons] at h ⊢
      by_cases hc : acc.2 < rank p.2
      · have hstep : cbStep acc p = (some p.1, rank p.2) := by
          unfold cbStep
          rw [if_pos hc]
        rw [hstep] at h ⊢
        exact lt_of_lt_of_le hc (cb_fold_snd_ge l (some p.1, rank p.2)).1
      · have hstep : cbStep acc p = acc := by
          unfold cbStep
          rw [if_neg hc]
        rw [hstep] at h ⊢
        exact ih acc nm h0 h

/-- C10: choose_baseline ranks each node by the maximum sequence number
it holds, with rank -1 both for an unreadable node (None) and for an
empty list; it returns None exactly when every node ranks -1, and
otherwise it returns a node whose rank is positive-ranked maximal over
the whole map. -/
theorem choose_baseline_spec (m : List (String × Option (List Nat))) :
    rank none = -1 ∧ rank (some []) = -1 ∧
    (choose_baseline m = none ↔ ∀ p ∈ m, rank p.2 = -1) ∧
    (∀ nm : String, choose_baseline m = some nm →
      ∃ s, (nm, s) ∈ m ∧ -1 < rank s ∧ ∀ p ∈ m, rank p.2 ≤ rank s) := by
  refine ⟨rfl, rfl, ⟨?_, ?_⟩, ?_⟩
  · intro h p hp
    have hle := (cb_fold_none m ((none : Option String), (-1 : Int)) h).2 p hp
    have hge := rank_ge_neg_one p.2
    omega
  · intro h
    unfold choose_baseline
    rw [cb_fold_stay m ((none : Option String), (-1 : Int))
      (fun p hp => le_of_eq (h p hp))]
  · intro nm h
    have h9 : (m.foldl cbStep ((none : Option String), (-1 : Int))).1 = some nm := h
    rcases cb_fold_some m ((none : Option String), (-1 : Int)) nm h9 with
      ⟨h1, _⟩ | ⟨s, hs, hr⟩
    · exact Option.noConfusion h1
    · have hpos := cb_fold_pos m ((none : Option String), (-1 : Int)) nm rfl h9
      have hub := (cb_fold_snd_ge m ((none : Option String), (-1 : Int))).2
      refine ⟨s, hs, ?_, ?_⟩
      · rw [hr]
        exact hpos
      · intro p hp
        rw [hr]
        exact hub p hp

/-- Witness for C10 on mW: mongo1 holds the largest max seq (2). -/
theorem choose_baseline_spec_witness :
    choose_baseline mW = some "mongo1" ∧
    ∃ s, ("mongo1", s) ∈ mW ∧ -1 < rank s ∧ ∀ p ∈ mW, rank p.2 ≤ rank s :=
  ⟨by decide, (choose_baseline_spec mW).2.2.2 "mongo1" (by decide)⟩

theorem watchAux_none_iff (prev : Option String)
    (poll : Nat → Option (Option String)) :
    ∀ (fuel i : Nat),
      (watchAux prev poll i fuel = none
        ↔ ∀ j, j < fuel → goodPoll prev (poll (i + j)) = false) := by
  intro fuel
  induction fuel with
  | zero =>
      intro i
      constructor
      · intro _ j hj
        omega
      · intro _
        rfl
  | succ fuel ih =>
      intro i
      constructor
      · intro h j hj
        rcases he : poll i with _ | np
        · simp only [watchAux, he] at h
          rcases j with _ | j9
          · simp [goodPoll, he]
          · have hstep := (ih (i + 1)).mp h j9 (by omega)
            rw [show i + (j9 + 1) = (i + 1) + j9 by omega]
            exact hstep
        · simp only [watchAux, he] at h
          by_cases hc : (truthy np && !(np == prev)) = true
          · rw [if_pos hc] at h
            subst h
            rw [Bool.and_eq_true] at hc
            exact absurd hc.1 (by simp [truthy])
          · rw [if_neg hc] at h
            rcases j with _ | j9
            · rw [Nat.add_zero, he]
              simp only [goodPoll]
              exact eq_false_of_ne_true hc
            · have hstep := (ih (i + 1)).mp h j9 (by omega)
              rw [show i + (j9 + 1) = (i + 1) + j9 by omega]
              exact hstep
      · intro h
        rcases he : poll i with _ | np
        · simp only [watchAux, he]
          refine (ih (i + 1)).mpr ?_
          intro j hj
          have hstep := h (j + 1) (by omega)
          rw [show i + (j + 1) = (i + 1) + j by omega] at hstep
          exact hstep
        · have h0 := h 0 (by omega)
          rw [Nat.add_zero, he] at h0
          simp only [goodPoll] at h0
          simp only [watchAux, he]
          rw [if_neg (by rw [h0]; exact Bool.noConfusion)]
          refine (ih (i + 1)).mpr ?_
          intro j hj
          have hstep := h (j + 1) (by omega)
          rw [show i + (j + 1) = (i + 1) + j by omega] at hstep
          exact hstep

theorem watchAux_some (prev : Option String)
    (poll : Nat → Option (Option String)) :
    ∀ (fuel i : Nat) (p : String), watchAux prev poll i fuel = some p →
      ∃ j, j < fuel ∧ poll (i + j) = some (some p)
        ∧ truthy (some p) = true ∧ some p ≠ prev
        ∧ ∀ j9, j9 < j → goodPoll prev (poll (i + j9)) = false := by
  intro fuel
  induction fuel with
  | zero =>
      intro i p h
      exact Option.noConfusion h
  | succ fuel ih =>
      intro i p h
      rcases he : poll i with _ | np
      · simp only [watchAux, he] at h
        obtain ⟨j, hj, hp, ht, hne, hmin⟩ := ih (i + 1) p h
        refine ⟨j + 1, by omega, ?_, ht, hne, ?_⟩
        · rw [show i + (j + 1) = (i + 1) + j by omega]
          exact hp
        · intro j9 hj9
          rcases j9 with _ | j8
          · rw [Nat.add_zero, he]
            rfl
          · rw [show i + (j8 + 1) = (i + 1) + j8 by omega]
            exact hmin j8 (by omega)
      · simp only [watchAux, he] at h
        by_cases hc : (truthy np && !(np == prev)) = true
        · rw [if_pos hc] at h
          subst h
          rw [Bool.and_eq_true] at hc
          refine ⟨0, by omega, ?_, hc.1, ?_, ?_⟩
          · rw [Nat.add_zero]
            exact he
          · intro hpp
            rw [hpp] at hc
            simp at hc
          · intro j9 hj9
            omega
        · rw [if_neg hc] at h
          obtain ⟨j, hj, hp, ht, hne, hmin⟩ := ih (i + 1) p h
          refine ⟨j + 1, by omega, ?_, ht, hne, ?_⟩
          · rw [show i + (j + 1) = (i + 1) + j by omega]
            exact hp
          · intro j9 hj9
            rcases j9 with _ | j8
            · rw [Nat.add_zero, he]
              simp only [goodPoll]
              exact eq_false_of_ne_true hc
            · rw [show i + (j8 + 1) = (i + 1) + j8 by omega]
              exact hmin j8 (by omega)

/-- C7: the watch-for-new-primary loop, polling at its fixed 0.5s
cadence, returns none exactly when no poll before the deadline
observed a truthy primary name different from the previous primary;
when it returns a primary p, p differs from the previous primary
(never the previous one), p was observed by the earliest poll that saw
a change, and every earlier poll saw no change. -/
theorem watch_for_primary_change_spec (prev : Option String)
    (poll : Nat → Option (Option String)) (fuel : Nat) :
    (watchForPrimaryChange prev poll fuel = none
      ↔ ∀ j, j < fuel → goodPoll prev (poll j) = false) ∧
    (∀ p : String, watchForPrimaryChange prev poll fuel = some p →
      some p ≠ prev ∧ ∃ j, j < fuel ∧ poll j = some (some p)
        ∧ ∀ j9, j9 < j → goodPoll prev (poll j9) = false) := by
  constructor
  · have hgen := watchAux_none_iff prev poll fuel 0
    simpa [watchForPrimaryChange] using hgen
  · intro p hp
    obtain ⟨j, hj, hpoll, _, hne, hmin⟩ := watchAux_some prev poll fuel 0 p hp
    refine ⟨hne, j, hj, by simpa using hpoll, ?_⟩
    intro j9 hj9
    have hstep := hmin j9 hj9
    simpa using hstep

/-- Witness for C7: with the previous primary mongo1 and every poll
observing mongo2, the loop returns mongo2, which differs from mongo1. -/
theorem watch_for_primary_change_spec_witness :
    some "mongo2" ≠ some "mongo1" ∧
    ∃ j, j < 120 ∧ pollW j = some (some "mongo2")
      ∧ ∀ j9, j9 < j → goodPoll (some "mongo1") (pollW j9) = false :=
  (watch_for_primary_change_spec (some "mongo1") pollW 120).2 "mongo2" (by decide)

end MongoReplica
